import Mathlib

/-!
Shallow embedding of `SevenHw.py`, an interactive contact manager
(address book with phone and birthday validation, and an upcoming-birthday
query with weekend roll-forward), together with proofs about its behaviour.

Python strings are modelled as Lean `String`; Python `date` objects as a
`PyDate` structure of numeric fields; Python exceptions as an explicit
`PyErr` value threaded through `Except`.  All definitions are translated
from the source file `SevenHw.py`; definitions whose names start with
`spec` are instead transcriptions of the natural-language specification,
used to compare the two.
-/

set_option autoImplicit false

namespace SevenHw

/-! ## Calendar arithmetic (model of Python `datetime.date`) -/

/-- Gregorian leap-year test, as used by `datetime`. -/
def isLeap (y : Nat) : Bool :=
  (y % 4 == 0 && y % 100 != 0) || y % 400 == 0

/-- Number of days in month `m` of year `y` (`m` between 1 and 12). -/
def daysInMonth (y m : Nat) : Nat :=
  if m == 2 then (if isLeap y then 29 else 28)
  else if m == 4 || m == 6 || m == 9 || m == 11 then 30
  else 31

/-- The constructor check of `datetime.date(y, m, d)`: Python restricts
years to `MINYEAR = 1 .. MAXYEAR = 9999` and days to the month's length. -/
def isValidDate (y m d : Nat) : Bool :=
  1 ≤ y && y ≤ 9999 && 1 ≤ m && m ≤ 12 && 1 ≤ d && d ≤ daysInMonth y m

/-- Model of a Python `datetime.date` value (fields as in Python). -/
structure PyDate where
  year : Nat
  month : Nat
  day : Nat
  deriving DecidableEq, Repr

/-- Days in the years strictly before year `y` (Python `_days_before_year`). -/
def daysBeforeYear (y : Nat) : Nat :=
  365 * (y - 1) + (y - 1) / 4 - (y - 1) / 100 + (y - 1) / 400

/-- Days in year `y` strictly before month `m` (Python `_days_before_month`). -/
def daysBeforeMonth (y m : Nat) : Nat :=
  ((List.range (m - 1)).map (fun i => daysInMonth y (i + 1))).sum

/-- Python `date.toordinal`: day count from 0001-01-01, which has ordinal 1. -/
def toordinal (d : PyDate) : Nat :=
  daysBeforeYear d.year + daysBeforeMonth d.year d.month + d.day

/-- Python `date.weekday`: Monday = 0 .. Sunday = 6.  0001-01-01 (ordinal 1)
was a Monday. -/
def weekday (d : PyDate) : Nat :=
  (toordinal d + 6) % 7

/-- Python `date` comparison `<`: lexicographic on (year, month, day). -/
def dateLt (a b : PyDate) : Bool :=
  a.year < b.year
  || (a.year == b.year && (a.month < b.month
      || (a.month == b.month && a.day < b.day)))

/-- `date.replace(year := y)`: rebuilds the date, re-running the constructor
check; raises `ValueError` when the day does not exist in that year. -/
def replaceYear (d : PyDate) (y : Nat) : Except String PyDate :=
  if isValidDate y d.month d.day then .ok ⟨y, d.month, d.day⟩
  else .error "day is out of range for month"

/-- The calendar successor of a valid date. -/
def nextDay (d : PyDate) : PyDate :=
  if d.day < daysInMonth d.year d.month then ⟨d.year, d.month, d.day + 1⟩
  else if d.month < 12 then ⟨d.year, d.month + 1, 1⟩
  else ⟨d.year + 1, 1, 1⟩

/-- `d + timedelta(days := n)` for a nonnegative `n`, as iterated successor. -/
def addDaysN (d : PyDate) (n : Nat) : PyDate :=
  match n with
  | 0 => d
  | k + 1 => addDaysN (nextDay d) k

/-- Left-pad the decimal rendering of `n` with zeros to width `w`
(Python `%02d` / `%04d`). -/
def padNum (w n : Nat) : String :=
  let s := toString n
  if s.length < w then String.mk (List.replicate (w - s.length) (Char.ofNat 48)) ++ s
  else s

/-- Python `date.strftime("%d.%m.%Y")`. -/
def formatDate (d : PyDate) : String :=
  padNum 2 d.day ++ "." ++ padNum 2 d.month ++ "." ++ padNum 4 d.year

/-! ## Python string helpers -/

/-- The whitespace set of Python `str.strip()` / `str.split()` restricted to
ASCII: space, tab, newline, carriage return, vertical tab, form feed.
(CPython additionally strips non-ASCII Unicode spaces, which no claim
exercises.) -/
def pyIsSpace (c : Char) : Bool :=
  c == ' ' || c == '\t' || c == '\n' || c == '\r'
  || c == Char.ofNat 11 || c == Char.ofNat 12

/-- Python `str.strip()` (on the character list). -/
def pyStripList (cs : List Char) : List Char :=
  ((cs.dropWhile pyIsSpace).reverse.dropWhile pyIsSpace).reverse

/-- Python `str.strip()`. -/
def pyStrip (s : String) : String :=
  String.mk (pyStripList s.toList)

/-- Tokenizer of Python `str.split()` (no separator): splits on runs of
whitespace, returns no empty tokens.  `acc` is the current token, reversed. -/
def pySplitGo (cs : List Char) (acc : List Char) : List String :=
  match cs with
  | [] => if acc.isEmpty then [] else [String.mk acc.reverse]
  | c :: rest =>
    if pyIsSpace c then
      if acc.isEmpty then pySplitGo rest []
      else String.mk acc.reverse :: pySplitGo rest []
    else pySplitGo rest (c :: acc)

/-- Python `str.split()` with no arguments. -/
def pySplit (s : String) : List String :=
  pySplitGo s.toList []

/-- Python `str.lower()` restricted to ASCII case folding (command verbs in
this program are ASCII). -/
def pyLower (s : String) : String :=
  String.mk (s.toList.map Char.toLower)

/-- Character class accepted by Python `str.isdigit()`.  CPython accepts any
Unicode character with the digit property; this model covers the ASCII
digits together with the superscript and subscript digits and the
Arabic-Indic decimal digits, which suffices for every string this
development evaluates the program on. -/
def pyIsDigitChar (c : Char) : Bool :=
  c.isDigit
  || c.toNat == 0xB2 || c.toNat == 0xB3 || c.toNat == 0xB9
  || c.toNat == 0x2070 || (0x2074 ≤ c.toNat && c.toNat ≤ 0x2079)
  || (0x2080 ≤ c.toNat && c.toNat ≤ 0x2089)
  || (0x660 ≤ c.toNat && c.toNat ≤ 0x669)

/-- Python `str.isdigit()`: nonempty and every character is a digit. -/
def pyIsdigit (s : String) : Bool :=
  !s.toList.isEmpty && s.toList.all pyIsDigitChar

/-- Numeric value of a string of ASCII digits. -/
def digitsVal (cs : List Char) : Nat :=
  cs.foldl (fun n c => n * 10 + (c.toNat - 48)) 0

/-- All characters are ASCII decimal digits. -/
def allAsciiDigits (cs : List Char) : Bool :=
  cs.all Char.isDigit

/-- Split a character list on the dot character, keeping empty pieces
(the literal `.` separators of the `"%d.%m.%Y"` format). -/
def splitDots (cs : List Char) : List (List Char) :=
  match cs with
  | [] => [[]]
  | c :: rest =>
    if c == '.' then [] :: splitDots rest
    else match splitDots rest with
      | [] => [[c]]
      | p :: ps => (c :: p) :: ps

/-- Inverse of `splitDots`: rejoin pieces with a dot between them (used to
state what `splitDots` decomposes). -/
def joinDots (ps : List (List Char)) : List Char :=
  match ps with
  | [] => []
  | [p] => p
  | p :: ps => p ++ '.' :: joinDots ps

/-- The day field of `strptime`'s `%d` directive: one or two ASCII digits
with value 1..31 (regex `3[01]|[12]\d|0[1-9]|[1-9]`). -/
def dayField (cs : List Char) : Bool :=
  allAsciiDigits cs && (cs.length == 1 || cs.length == 2)
  && 1 ≤ digitsVal cs && digitsVal cs ≤ 31

/-- The month field of `strptime`'s `%m` directive: one or two ASCII digits
with value 1..12 (regex `1[0-2]|0[1-9]|[1-9]`). -/
def monthField (cs : List Char) : Bool :=
  allAsciiDigits cs && (cs.length == 1 || cs.length == 2)
  && 1 ≤ digitsVal cs && digitsVal cs ≤ 12

/-- The year field of `strptime`'s `%Y` directive: exactly four ASCII
digits. -/
def yearField (cs : List Char) : Bool :=
  allAsciiDigits cs && cs.length == 4

/-- Model of `datetime.strptime(value, "%d.%m.%Y")`, returning
`(day, month, year)` on success.  The format's regex consumes the whole
string, requires the two literal dots, accepts one- or two-digit day and
month (zero padding optional) and a four-digit year, and the resulting
triple must construct a valid `datetime` (a real calendar date).
(CPython's regex `\d` also accepts non-ASCII Unicode decimal digits; this
model is exact on ASCII input.) -/
def strptimeDmY (s : String) : Option (Nat × Nat × Nat) :=
  match splitDots s.toList with
  | [ds, ms, ys] =>
    if dayField ds && monthField ms && yearField ys then
      let d := digitsVal ds
      let m := digitsVal ms
      let y := digitsVal ys
      if isValidDate y m d then some (d, m, y) else none
    else none
  | _ => none

/-! ## Errors and field validators -/

/-- The Python exceptions this program can raise. -/
inductive PyErr where
  | valueError (msg : String)
  | keyError (msg : String)
  deriving DecidableEq, Repr

instance {ε α : Type} [DecidableEq ε] [DecidableEq α] : DecidableEq (Except ε α) :=
  fun a b =>
    match a, b with
    | .error e, .error f =>
      if h : e = f then .isTrue (by rw [h]) else .isFalse (by intro hh; cases hh; exact h rfl)
    | .ok x, .ok y =>
      if h : x = y then .isTrue (by rw [h]) else .isFalse (by intro hh; cases hh; exact h rfl)
    | .error _, .ok _ => .isFalse (by intro hh; cases hh)
    | .ok _, .error _ => .isFalse (by intro hh; cases hh)

/-- ASCII code points. -/
def isAsciiChar (c : Char) : Bool :=
  c.toNat ≤ 127

/-- A single-quote character, used by Python `str(KeyError(...))` and by
the `show-birthday` message. -/
def sq : String :=
  (Char.ofNat 39).toString

/-- The string the `input_error` decorator prints for a caught exception:
`str(e)`, which for a `KeyError` wraps the message in single quotes. -/
def renderErr (e : PyErr) : String :=
  match e with
  | .valueError m => m
  | .keyError m => sq ++ m ++ sq

/-- `Phone.__init__`: accepts exactly the strings `value` with
`value.isdigit() and len(value) == 10`; stores the string. -/
def phoneNew (value : String) : Except PyErr String :=
  if pyIsdigit value && value.length == 10 then .ok value
  else .error (.valueError "Invalid phone format. Use 10 digits")

/-- `Birthday.__init__`: runs `datetime.strptime(value, "%d.%m.%Y")` and
re-raises any failure as the fixed `ValueError`; stores the original
string. -/
def birthdayNew (value : String) : Except PyErr String :=
  match strptimeDmY value with
  | some _ => .ok value
  | none => .error (.valueError "Invalid date format. Use DD.MM.YYYY")

/-! ## Record and AddressBook -/

/-- A `Record`: a name, an ordered list of validated phone strings, and an
optional stored birthday string. -/
structure Record where
  name : String
  phones : List String
  birthday : Option String
  deriving DecidableEq, Repr

/-- `Record.find_phone`: first stored phone equal to `phone`, if any. -/
def findPhone (r : Record) (phone : String) : Option String :=
  r.phones.find? (· == phone)

/-- `Record.add_contact` (the phone-adding method): validate and append. -/
def recordAddPhone (r : Record) (phone : String) : Except PyErr Record :=
  match phoneNew phone with
  | .error e => .error e
  | .ok p => .ok { r with phones := r.phones ++ [p] }

/-- `Record.change_phone(old, new)`.  The source first looks up `old`
(raising if absent), then *removes* it, and only then validates `new` —
so a failing validation leaves the record with `old` already removed.
The returned pair is the record state after the call together with the
outcome. -/
def changePhone (r : Record) (oldPhone newPhone : String) : Record × Except PyErr Unit :=
  match findPhone r oldPhone with
  | none => (r, .error (.valueError ("Phone " ++ oldPhone ++ " not found")))
  | some pobj =>
    let r1 := { r with phones := r.phones.erase pobj }
    match phoneNew newPhone with
    | .error e => (r1, .error e)
    | .ok p => ({ r1 with phones := r1.phones ++ [p] }, .ok ())

/-- `Record.add_birthday`: validate, then replace the stored birthday. -/
def recordAddBirthday (r : Record) (bday : String) : Except PyErr Record :=
  match birthdayNew bday with
  | .error e => .error e
  | .ok b => .ok { r with birthday := some b }

/-- `Record.__str__`. -/
def recordStr (r : Record) : String :=
  r.name ++ ": "
  ++ (if r.phones.isEmpty then "no phones" else String.intercalate ", " r.phones)
  ++ (match r.birthday with
      | some b => ", Birthday: " ++ b
      | none => "")

/-- The `AddressBook`: a Python `dict` from name to `Record`, modelled as an
association list in insertion order (`dict` preserves insertion order;
assigning to an existing key updates in place). -/
abbrev AddressBook : Type :=
  List (String × Record)

/-- `AddressBook.add_record`: `self.data[record.name.value] = record` —
replace in place when the key exists, append otherwise. -/
def addRecord (book : AddressBook) (r : Record) : AddressBook :=
  match book with
  | [] => [(r.name, r)]
  | kv :: rest =>
    if kv.1 == r.name then (kv.1, r) :: rest
    else kv :: addRecord rest r

/-- `AddressBook.get_record`: `self.data.get(name)`. -/
def getRecord (book : AddressBook) (name : String) : Option Record :=
  match book with
  | [] => none
  | kv :: rest => if kv.1 == name then some kv.2 else getRecord rest name

/-- In-place mutation of the record stored under key `name`: the handlers
look a record up by name and then mutate that object, which the dict sees
at that same key. -/
def updateAt (book : AddressBook) (name : String) (r : Record) : AddressBook :=
  book.map (fun kv => if kv.1 == name then (kv.1, r) else kv)

/-! ## Command handlers

Each handler models the decorated Python function: it receives the book and
the argument tokens and produces the book state after the call together
with either a result string or the raised exception (which the
`input_error` wrapper will render).  The `check_args(n)` decorator raises
`ValueError` when fewer than `n` arguments are present; Python tuple
unpacking such as `name, old, new = args` additionally raises `ValueError`
when there are too many. -/

/-- The `ValueError` of `check_args(n)`. -/
def notEnoughArgs (n : Nat) : PyErr :=
  .valueError ("Not enough arguments. Expected at least " ++ toString n)

/-- The `ValueError` of unpacking a tuple of expected size `n` from a longer
list. -/
def tooManyValues (n : Nat) : PyErr :=
  .valueError ("too many values to unpack (expected " ++ toString n ++ ")")

/-- The phone-adding loop of `add_contact`: `for phone in phones:
record.add_contact(phone)`.  Mutations before a failure persist. -/
def addPhonesLoop (r : Record) (phones : List String) : Record × Except PyErr Unit :=
  match phones with
  | [] => (r, .ok ())
  | p :: rest =>
    match recordAddPhone r p with
    | .error e => (r, .error e)
    | .ok r1 => addPhonesLoop r1 rest

/-- `add_contact(book, args)` (the `add` command): reuse or create the
record for `args[0]`, then validate-and-append each further token as a
phone; the first invalid phone aborts the loop but the record — with the
phones added so far — stays in the book. -/
def addContact (book : AddressBook) (args : List String) : AddressBook × Except PyErr String :=
  if args.length < 1 then (book, .error (notEnoughArgs 1)) else
  match args with
  | [] => (book, .error (.valueError "You must provide a name"))
  | name :: phones =>
    let found := getRecord book name
    let record0 := found.getD ⟨name, [], none⟩
    let message := if found.isNone then "Contact added." else "Contact updated."
    let book1 := if found.isNone then addRecord book record0 else book
    let book2 := updateAt book1 name (addPhonesLoop record0 phones).1
    match (addPhonesLoop record0 phones).2 with
    | .ok _ => (book2, .ok message)
    | .error e => (book2, .error e)

/-- `change_contact(book, args)` (the `change` command). -/
def changeContact (book : AddressBook) (args : List String) : AddressBook × Except PyErr String :=
  if args.length < 3 then (book, .error (notEnoughArgs 3)) else
  match args with
  | [name, oldPhone, newPhone] =>
    match getRecord book name with
    | none => (book, .error (.keyError ("No such contact: " ++ name)))
    | some r =>
      let book1 := updateAt book name (changePhone r oldPhone newPhone).1
      match (changePhone r oldPhone newPhone).2 with
      | .ok _ => (book1, .ok ("Phone changed for " ++ name))
      | .error e => (book1, .error e)
  | _ => (book, .error (tooManyValues 3))

/-- `show_phone(book, args)` (the `phone` command). -/
def showPhone (book : AddressBook) (args : List String) : AddressBook × Except PyErr String :=
  if args.length < 1 then (book, .error (notEnoughArgs 1)) else
  match args with
  | [] => (book, .error (notEnoughArgs 1))
  | name :: _ =>
    match getRecord book name with
    | none => (book, .error (.keyError ("No such contact: " ++ name)))
    | some r =>
      (book, .ok (if r.phones.isEmpty then "No phones" else String.intercalate ", " r.phones))

/-- `add_birthday(book, args)` (the `add-birthday` command). -/
def addBirthdayCmd (book : AddressBook) (args : List String) : AddressBook × Except PyErr String :=
  if args.length < 2 then (book, .error (notEnoughArgs 2)) else
  match args with
  | [name, bday] =>
    match getRecord book name with
    | none => (book, .error (.keyError ("No such contact: " ++ name)))
    | some r =>
      match recordAddBirthday r bday with
      | .error e => (book, .error e)
      | .ok r1 =>
        (updateAt book name r1, .ok ("Birthday " ++ bday ++ " added for " ++ name))
  | _ => (book, .error (tooManyValues 2))

/-- `show_birthday(book, args)` (the `show-birthday` command).  Note the
source answers `"No birthday set for <name>"` both when the contact has no
birthday and when the name is entirely unknown. -/
def showBirthday (book : AddressBook) (args : List String) : AddressBook × Except PyErr String :=
  if args.length < 1 then (book, .error (notEnoughArgs 1)) else
  match args with
  | [] => (book, .error (notEnoughArgs 1))
  | name :: _ =>
    match getRecord book name with
    | none => (book, .ok ("No birthday set for " ++ name))
    | some r =>
      match r.birthday with
      | none => (book, .ok ("No birthday set for " ++ name))
      | some b => (book, .ok (name ++ sq ++ "s birthday is " ++ b))

/-- One record's contribution inside the `get_upcoming_birthdays` loop:
parse the stored birthday, move it to this year, roll to next year when it
already passed, test the window with the pre-roll offset, and format the
occurrence — pushed to the following Monday when it falls on a weekend.
Either `date.replace` call raises `ValueError` when the day/month does not
exist in the target year (February 29 in a non-leap year). -/
def upcomingFor (today : PyDate) (days : Int) (r : Record) : Except PyErr (Option (String × String)) :=
  match r.birthday with
  | none => .ok none
  | some bval =>
    match strptimeDmY bval with
    | none => .error (.valueError "time data does not match format %d.%m.%Y")
    | some (d, m, y) =>
      match replaceYear ⟨y, m, d⟩ today.year with
      | .error msg => .error (.valueError msg)
      | .ok bty0 =>
        match (if dateLt bty0 today then replaceYear bty0 (today.year + 1) else .ok bty0) with
        | .error msg => .error (.valueError msg)
        | .ok bty =>
          if 0 ≤ (toordinal bty : Int) - (toordinal today : Int)
             ∧ (toordinal bty : Int) - (toordinal today : Int) < days then
            .ok (some (r.name, formatDate
              (if weekday bty = 5 ∨ weekday bty = 6
               then addDaysN bty (7 - weekday bty) else bty)))
          else .ok none

/-- `get_upcoming_birthdays(book, days)`: the loop over the book's records
in insertion order.  It is *not* wrapped in `input_error`, so an exception
raised inside it propagates to the caller. -/
def getUpcomingBirthdays (book : AddressBook) (today : PyDate) (days : Int) :
    Except PyErr (List (String × String)) :=
  match book with
  | [] => .ok []
  | kv :: rest =>
    match upcomingFor today days kv.2 with
    | .error e => .error e
    | .ok none => getUpcomingBirthdays rest today days
    | .ok (some entry) =>
      match getUpcomingBirthdays rest today days with
      | .error e => .error e
      | .ok l => .ok (entry :: l)

/-! ## Parsing and the dispatch loop -/

/-- `parse_input`: an all-whitespace line yields no verb; otherwise the
first whitespace token, lower-cased, and the remaining tokens. -/
def parseInput (command : String) : Option String × List String :=
  if pyStrip command == "" then (none, [])
  else
    match pySplit (pyStrip command) with
    | [] => (none, [])
    | p :: rest => (some (pyLower p), rest)

/-- Result of processing one input line in `main`'s loop. -/
inductive Outcome where
  | printed (lines : List String)
  | exited (line : String)
  | crashed (e : PyErr)
  deriving DecidableEq, Repr

/-- `str(e)` printing of a wrapped handler result, i.e. the `input_error`
decorator around a handler call followed by `print`. -/
def printWrapped (res : Except PyErr String) : String :=
  match res with
  | .ok s => s
  | .error e => renderErr e

/-- One iteration of `main`'s read–dispatch–print loop, for input `line`.
`today` stands for `date.today()` at the moment `birthdays` runs.  Every
handler is shielded by `input_error`, but the `birthdays` branch calls
`get_upcoming_birthdays` directly, so an exception there crashes the
process (`Outcome.crashed`). -/
def dispatch (book : AddressBook) (today : PyDate) (line : String) : AddressBook × Outcome :=
  let args := (parseInput line).2
  match (parseInput line).1 with
  | none => (book, .printed ["Invalid command."])
  | some c =>
    if c == "close" || c == "exit" then (book, .exited "Good bye!")
    else if c == "hello" then (book, .printed ["How can I help you?"])
    else if c == "add" then
      ((addContact book args).1, .printed [printWrapped (addContact book args).2])
    else if c == "change" then
      ((changeContact book args).1, .printed [printWrapped (changeContact book args).2])
    else if c == "phone" then
      ((showPhone book args).1, .printed [printWrapped (showPhone book args).2])
    else if c == "add-birthday" then
      ((addBirthdayCmd book args).1, .printed [printWrapped (addBirthdayCmd book args).2])
    else if c == "show-birthday" then
      ((showBirthday book args).1, .printed [printWrapped (showBirthday book args).2])
    else if c == "birthdays" then
      match getUpcomingBirthdays book today 7 with
      | .error e => (book, .crashed e)
      | .ok upcoming =>
        if upcoming.isEmpty then (book, .printed ["No upcoming birthdays"])
        else (book, .printed (upcoming.map (fun u => u.1 ++ " -> " ++ u.2)))
    else if c == "all" then
      (book, .printed [if book.isEmpty then "Address book is empty"
                       else String.intercalate "\n" (book.map (fun kv => recordStr kv.2))])
    else (book, .printed ["Invalid command."])

/-! ## Specification-side definitions

These transcribe the natural-language specification (not the source) and
exist to be compared with the definitions above. -/

/-- Spec side: a phone is valid when it consists solely of ASCII digits and
has length exactly 10. -/
def specAsciiPhone (s : String) : Bool :=
  s.toList.all Char.isDigit && s.length == 10

/-- Spec side: the zero-padded birthday format — two-digit day, two-digit
month, four-digit year, separated by dots, denoting a real calendar date. -/
def specZeroPaddedBirthday (s : String) : Bool :=
  match splitDots s.toList with
  | [ds, ms, ys] =>
    allAsciiDigits ds && ds.length == 2
    && allAsciiDigits ms && ms.length == 2
    && allAsciiDigits ys && ys.length == 4
    && isValidDate (digitsVal ys) (digitsVal ms) (digitsVal ds)
  | _ => false

/-- Spec side: this year's occurrence of a birthday's month/day, rolled to
next year's occurrence when it is strictly before today; `none` when the
day/month does not exist in the target year. -/
def specOccurrence (today : PyDate) (m d : Nat) : Option PyDate :=
  if isValidDate today.year m d then
    let thisYear : PyDate := ⟨today.year, m, d⟩
    if dateLt thisYear today then
      if isValidDate (today.year + 1) m d then some ⟨today.year + 1, m, d⟩ else none
    else some thisYear
  else none

/-- Spec side: the entry the window query should produce for one record —
included exactly when the pre-roll offset satisfies `0 ≤ offset < 7`, and
displayed at the occurrence pushed to the following Monday when it falls
on Saturday or Sunday. -/
def specEntry (today : PyDate) (r : Record) : Option (String × String) :=
  match r.birthday with
  | none => none
  | some bval =>
    match strptimeDmY bval with
    | none => none
    | some (d, m, _) =>
      match specOccurrence today m d with
      | none => none
      | some occ =>
        if 0 ≤ (toordinal occ : Int) - (toordinal today : Int)
           ∧ (toordinal occ : Int) - (toordinal today : Int) < 7 then
          some (r.name, formatDate (if weekday occ = 5 ∨ weekday occ = 6
                                    then addDaysN occ (7 - weekday occ) else occ))
        else none

/-- The Directory invariant: names key the book uniquely, and every stored
record's name equals its key. -/
def bookInv (book : AddressBook) : Prop :=
  (book.map Prod.fst).Nodup ∧ ∀ kv ∈ book, (Prod.snd kv).name = kv.1

/-! ## Helper lemmas -/


theorem phoneNew_eq_ok {s : String} (h : (phoneNew s).isOk = true) : phoneNew s = .ok s := by
  by_cases hc : (pyIsdigit s && s.length == 10) = true
  · simp [phoneNew, hc]
  · simp [phoneNew, hc, Except.isOk, Except.toBool] at h

theorem phoneNew_eq_err {s : String} (h : (phoneNew s).isOk = false) :
    phoneNew s = .error (.valueError "Invalid phone format. Use 10 digits") := by
  by_cases hc : (pyIsdigit s && s.length == 10) = true
  · simp [phoneNew, hc, Except.isOk, Except.toBool] at h
  · simp [phoneNew, hc]

theorem find?_beq_of_not_mem {xs : List String} {a : String} (h : a ∉ xs) :
    xs.find? (· == a) = none := by
  refine List.find?_eq_none.mpr (fun x hx => ?_)
  simp only [beq_iff_eq]
  intro he
  exact h (he ▸ hx)

theorem find?_beq_append_cons {xs ys : List String} {a : String} (h : a ∉ xs) :
    (xs ++ a :: ys).find? (· == a) = some a := by
  induction xs with
  | nil => simp
  | cons x xs ih =>
    have hxa : (x == a) = false :=
      beq_eq_false_iff_ne.mpr (fun he => h (he ▸ List.mem_cons_self x xs))
    have hm : a ∉ xs := fun hmm => h (List.mem_cons_of_mem x hmm)
    rw [List.cons_append, List.find?_cons_of_neg _ (by simp [hxa]), ih hm]

theorem erase_append_cons {xs ys : List String} {a : String} (h : a ∉ xs) :
    (xs ++ a :: ys).erase a = xs ++ ys := by
  rw [List.erase_append_right _ h, List.erase_cons_head]

theorem getRecord_eq_none_iff {book : AddressBook} {name : String} :
    getRecord book name = none ↔ ∀ kv ∈ book, Prod.fst kv ≠ name := by
  induction book with
  | nil => simp [getRecord]
  | cons kv rest ih =>
    by_cases hk : kv.1 = name
    · constructor
      · intro h
        simp [getRecord, hk] at h
      · intro h
        exact absurd hk (h kv (List.mem_cons_self kv rest))
    · constructor
      · intro h x hx
        rcases List.mem_cons.mp hx with he | hm
        · rw [he]; exact hk
        · have hrest : getRecord rest name = none := by
            simpa [getRecord, hk] using h
          exact (ih.mp hrest) x hm
      · intro h
        have hrest : getRecord rest name = none :=
          ih.mpr (fun x hx => h x (List.mem_cons_of_mem kv hx))
        simpa [getRecord, hk] using hrest

theorem getRecord_of_mem_inv {book : AddressBook} {name : String} {r : Record}
    (hinv : bookInv book) (hmem : (name, r) ∈ book) : getRecord book name = some r := by
  induction book with
  | nil => cases hmem
  | cons kv rest ih =>
    rcases List.mem_cons.mp hmem with he | hm
    · rw [← he]
      simp [getRecord]
    · have hk : kv.1 ≠ name := by
        intro he
        have hnd := hinv.1
        simp only [List.map_cons, List.nodup_cons] at hnd
        exact hnd.1 (he ▸ (List.mem_map.mpr ⟨(name, r), hm, rfl⟩))
      have hinv2 : bookInv rest :=
        ⟨(List.nodup_cons.mp hinv.1).2, fun x hx => hinv.2 x (List.mem_cons_of_mem kv hx)⟩
      simp [getRecord, hk, ih hinv2 hm]

theorem getRecord_addRecord_self (book : AddressBook) (r : Record) :
    getRecord (addRecord book r) r.name = some r := by
  induction book with
  | nil => simp [addRecord, getRecord]
  | cons kv rest ih =>
    by_cases hk : kv.1 = r.name
    · simp [addRecord, getRecord, hk]
    · simp [addRecord, getRecord, hk, ih]

theorem addRecord_addRecord {book : AddressBook} {r r2 : Record} (h : r2.name = r.name) :
    addRecord (addRecord book r) r2 = addRecord book r2 := by
  induction book with
  | nil => simp [addRecord, h]
  | cons kv rest ih =>
    by_cases hk : kv.1 = r.name
    · simp [addRecord, hk, h]
    · have hk2 : ¬kv.1 = r2.name := h ▸ hk
      simp [addRecord, hk, hk2, ih]

theorem addRecord_of_getRecord_none {book : AddressBook} {r : Record}
    (h : getRecord book r.name = none) : addRecord book r = book ++ [(r.name, r)] := by
  induction book with
  | nil => simp [addRecord]
  | cons kv rest ih =>
    have hk : kv.1 ≠ r.name := getRecord_eq_none_iff.mp h kv (List.mem_cons_self kv rest)
    have hrest : getRecord rest r.name = none :=
      getRecord_eq_none_iff.mpr (fun x hx => getRecord_eq_none_iff.mp h x (List.mem_cons_of_mem kv hx))
    simp [addRecord, hk, ih hrest]

theorem getRecord_append_of_none {book : AddressBook} (l : AddressBook) {name : String}
    (h : getRecord book name = none) :
    getRecord (book ++ l) name = getRecord l name := by
  induction book with
  | nil => rfl
  | cons kv rest ih =>
    have hk : kv.1 ≠ name := getRecord_eq_none_iff.mp h kv (List.mem_cons_self kv rest)
    have hrest : getRecord rest name = none :=
      getRecord_eq_none_iff.mpr (fun x hx => getRecord_eq_none_iff.mp h x (List.mem_cons_of_mem kv hx))
    simp [getRecord, hk, ih hrest]

theorem addRecord_append_self {book : AddressBook} {r r2 : Record} (hname : r2.name = r.name)
    (h : getRecord book r.name = none) :
    addRecord (book ++ [(r.name, r)]) r2 = book ++ [(r.name, r2)] := by
  induction book with
  | nil => simp [addRecord, hname]
  | cons kv rest ih =>
    have hk : kv.1 ≠ r.name := getRecord_eq_none_iff.mp h kv (List.mem_cons_self kv rest)
    have hk2 : ¬kv.1 = r2.name := hname ▸ hk
    have hrest : getRecord rest r.name = none :=
      getRecord_eq_none_iff.mpr (fun x hx => getRecord_eq_none_iff.mp h x (List.mem_cons_of_mem kv hx))
    simp [addRecord, hk2, ih hrest]

theorem splitDots_ne_nil (cs : List Char) : splitDots cs ≠ [] := by
  cases cs with
  | nil => simp [splitDots]
  | cons c rest =>
    by_cases hc : c = '.'
    · simp [splitDots, hc]
    · simp only [splitDots, beq_iff_eq, hc, if_false]
      cases splitDots rest <;> simp

theorem joinDots_splitDots (cs : List Char) : joinDots (splitDots cs) = cs := by
  induction cs with
  | nil => rfl
  | cons c rest ih =>
    by_cases hc : c = '.'
    · rcases hrest : splitDots rest with _ | ⟨p, ps⟩
      · exact absurd hrest (splitDots_ne_nil rest)
      · rw [hc]
        simp only [splitDots, beq_self_eq_true, if_true, hrest, joinDots]
        rw [hrest] at ih
        simpa [joinDots] using congrArg (fun l => '.' :: l) ih
    · rcases hrest : splitDots rest with _ | ⟨p, ps⟩
      · exact absurd hrest (splitDots_ne_nil rest)
      · simp only [splitDots, beq_iff_eq, hc, if_false, hrest]
        rw [hrest] at ih
        cases ps with
        | nil => simpa [joinDots] using congrArg (fun l => c :: l) ih
        | cons q qs => simpa [joinDots] using congrArg (fun l => c :: l) ih

theorem splitDots_no_dot {a : List Char} (h : '.' ∉ a) : splitDots a = [a] := by
  induction a with
  | nil => rfl
  | cons c rest ih =>
    have hc : ¬c = '.' := fun he => h (he ▸ List.mem_cons_self c rest)
    have hrest : '.' ∉ rest := fun hm => h (List.mem_cons_of_mem c hm)
    simp [splitDots, hc, ih hrest]

theorem splitDots_append {a : List Char} (rest : List Char) (h : '.' ∉ a) :
    splitDots (a ++ '.' :: rest) = a :: splitDots rest := by
  induction a with
  | nil => simp [splitDots]
  | cons c cs ih =>
    have hc : ¬c = '.' := fun he => h (he ▸ List.mem_cons_self c cs)
    have hcs : '.' ∉ cs := fun hm => h (List.mem_cons_of_mem c hm)
    rw [List.cons_append]
    simp only [splitDots, beq_iff_eq, hc, if_false, ih hcs]

theorem not_dot_of_digits {cs : List Char} (h : allAsciiDigits cs = true) : '.' ∉ cs := by
  intro hm
  have := List.all_eq_true.mp h '.' hm
  simp [Char.isDigit] at this

theorem pyIsDigitChar_of_ascii {c : Char} (h : isAsciiChar c = true) :
    pyIsDigitChar c = c.isDigit := by
  have hle : c.toNat ≤ 127 := by
    simpa [isAsciiChar] using h
  unfold pyIsDigitChar
  cases hd : c.isDigit
  · simp only [Bool.false_or]
    have h1 : (c.toNat == 0xB2) = false := by simp; omega
    have h2 : (c.toNat == 0xB3) = false := by simp; omega
    have h3 : (c.toNat == 0xB9) = false := by simp; omega
    have h4 : (c.toNat == 0x2070) = false := by simp; omega
    have h5 : (0x2074 ≤ c.toNat && c.toNat ≤ 0x2079) = false := by
      simp only [Bool.and_eq_false_iff, decide_eq_false_iff_not]
      left; omega
    have h6 : (0x2080 ≤ c.toNat && c.toNat ≤ 0x2089) = false := by
      simp only [Bool.and_eq_false_iff, decide_eq_false_iff_not]
      left; omega
    have h7 : (0x660 ≤ c.toNat && c.toNat ≤ 0x669) = false := by
      simp only [Bool.and_eq_false_iff, decide_eq_false_iff_not]
      left; omega
    rw [h1, h2, h3, h4, h5, h6, h7]
    rfl
  · simp

theorem showBirthday_cons (book : AddressBook) (name : String) (rest : List String) :
    showBirthday book (name :: rest)
      = (match getRecord book name with
        | none => (book, .ok ("No birthday set for " ++ name))
        | some r =>
          match r.birthday with
          | none => (book, .ok ("No birthday set for " ++ name))
          | some b => (book, .ok (name ++ sq ++ "s birthday is " ++ b))) := by
  unfold showBirthday
  rw [if_neg (by simp)]

/-! ## Claim theorems -/

/-- Claim C2 (code bug): the spec promises that every error raised by an
invoked operation is caught at the dispatch boundary and converted to a
printed line, but the `birthdays` command calls `get_upcoming_birthdays`
without the `input_error` shield, and with a stored birthday of
`29.02.2024` and a non-leap current year (`today = 2025-06-10`) the
`date.replace(year=today.year)` call raises an uncaught `ValueError` that
terminates the process. -/
theorem c2_birthdays_uncaught_crash :
    dispatch [("Bob", ⟨"Bob", [], some "29.02.2024"⟩)] ⟨2025, 6, 10⟩ "birthdays"
      = ([("Bob", ⟨"Bob", [], some "29.02.2024"⟩)],
         .crashed (.valueError "day is out of range for month")) := by
  decide

/-- Claim C4 counterexample: `show_birthday` on a name that is not a key of
the Directory does *not* fail with NotFound — it answers the ordinary
"no birthday" message, because the source collapses the unknown-name and
no-birthday cases into one branch. -/
theorem c4_counterexample :
    showBirthday ([] : AddressBook) ["Ann"] = ([], .ok "No birthday set for Ann")
    ∧ ∀ m : String, (([] : AddressBook), Except.ok m) ≠ (([] : AddressBook), Except.error (PyErr.keyError ("No such contact: " ++ "Ann"))) := by
  constructor
  · decide
  · intro m h
    cases congrArg Prod.snd h

/-- Claim C4 as amended: `show_birthday(name)` answers the
"No birthday set for name" message both when the name is unknown and when
the contact exists without a birthday, and the formatted birthday message
when a birthday is set. -/
theorem c4_show_birthday (book : AddressBook) (name : String) (rest : List String) :
    ((∀ kv ∈ book, Prod.fst kv ≠ name) →
      showBirthday book (name :: rest) = (book, .ok ("No birthday set for " ++ name)))
    ∧ (∀ r : Record, bookInv book → (name, r) ∈ book → r.birthday = none →
      showBirthday book (name :: rest) = (book, .ok ("No birthday set for " ++ name)))
    ∧ (∀ (r : Record) (b : String), bookInv book → (name, r) ∈ book → r.birthday = some b →
      showBirthday book (name :: rest) = (book, .ok (name ++ sq ++ "s birthday is " ++ b))) := by
  refine ⟨fun h => ?_, fun r hinv hmem hb => ?_, fun r b hinv hmem hb => ?_⟩
  · rw [showBirthday_cons, getRecord_eq_none_iff.mpr h]
  · rw [showBirthday_cons, getRecord_of_mem_inv hinv hmem]
    simp [hb]
  · rw [showBirthday_cons, getRecord_of_mem_inv hinv hmem]
    simp [hb]

/-- Witness for C4: a contact with a stored birthday gets the formatted
message. -/
theorem c4_witness :
    showBirthday [("Ann", ⟨"Ann", [], some "15.06.1990"⟩)] ["Ann"]
      = ([("Ann", ⟨"Ann", [], some "15.06.1990"⟩)],
         .ok ("Ann" ++ sq ++ "s birthday is " ++ "15.06.1990")) :=
  (c4_show_birthday [("Ann", ⟨"Ann", [], some "15.06.1990"⟩)] "Ann" []).2.2
    ⟨"Ann", [], some "15.06.1990"⟩ "15.06.1990"
    ⟨by decide, by intro kv hkv; cases hkv with
      | head => rfl
      | tail _ h => cases h⟩
    (List.mem_singleton.mpr rfl) rfl

theorem strptimeDmY_split3 {s : String} {ds ms ys : List Char}
    (h : splitDots s.toList = [ds, ms, ys]) :
    strptimeDmY s
      = if (dayField ds && monthField ms && yearField ys) = true
        then (if isValidDate (digitsVal ys) (digitsVal ms) (digitsVal ds) = true
              then some (digitsVal ds, digitsVal ms, digitsVal ys) else none)
        else none := by
  unfold strptimeDmY
  rw [h]

theorem phoneNew_isOk_iff (s : String) :
    (phoneNew s).isOk = true ↔ (pyIsdigit s && s.length == 10) = true := by
  by_cases hc : (pyIsdigit s && s.length == 10) = true
  · simp [phoneNew, hc, Except.isOk, Except.toBool]
  · simp [phoneNew, hc, Except.isOk, Except.toBool]

theorem toList_isEmpty_false_of_length {s : String} (h : s.length = 10) :
    s.toList.isEmpty = false := by
  cases hl : s.toList with
  | nil =>
    exfalso
    have hlen0 : s.length = 0 := by
      show s.data.length = 0
      have he : s.data = [] := hl
      rw [he]
      rfl
    rw [hlen0] at h
    cases h
  | cons c cs =>
    rfl

/-- Claim C5 counterexample: the spec requires a zero-padded two-digit day
and month, but `strptime`'s `%d` and `%m` directives also accept single
digits, so `Birthday("1.1.2024")` succeeds even though the value is not in
the zero-padded form. -/
theorem c5_counterexample :
    birthdayNew "1.1.2024" = .ok "1.1.2024"
    ∧ specZeroPaddedBirthday "1.1.2024" = false := by
  constructor <;> decide

/-- Claim C5 as amended: `Birthday(value)` fails with InvalidFormat unless
`value` is `day.month.year` with a one- or two-digit day (value 1..31), a
one- or two-digit month (value 1..12) — zero padding optional — and an
exactly-four-digit year, denoting an existing calendar date; in particular
`29.02.2024` succeeds while `29.02.2023`, `31.04.2024` and `31.02.2024`
fail. -/
theorem c5_birthday_validation :
    (∀ s : String, (birthdayNew s).isOk = true ↔
      ∃ ds ms ys, s.toList = ds ++ '.' :: (ms ++ '.' :: ys)
        ∧ dayField ds = true ∧ monthField ms = true ∧ yearField ys = true
        ∧ isValidDate (digitsVal ys) (digitsVal ms) (digitsVal ds) = true)
    ∧ (birthdayNew "29.02.2024").isOk = true
    ∧ (birthdayNew "29.02.2023").isOk = false
    ∧ (birthdayNew "31.04.2024").isOk = false
    ∧ (birthdayNew "31.02.2024").isOk = false := by
  refine ⟨fun s => ?_, by decide, by decide, by decide, by decide⟩
  constructor
  · intro h
    unfold birthdayNew at h
    rcases hsplit : splitDots s.toList with _ | ⟨ds, ps⟩
    · exact absurd hsplit (splitDots_ne_nil s.toList)
    rcases ps with _ | ⟨ms, ps2⟩
    · rw [show strptimeDmY s = none by unfold strptimeDmY; rw [hsplit]] at h
      simp [Except.isOk, Except.toBool] at h
    rcases ps2 with _ | ⟨ys, ps3⟩
    · rw [show strptimeDmY s = none by unfold strptimeDmY; rw [hsplit]] at h
      simp [Except.isOk, Except.toBool] at h
    rcases ps3 with _ | ⟨z, ps4⟩
    swap
    · rw [show strptimeDmY s = none by unfold strptimeDmY; rw [hsplit]] at h
      simp [Except.isOk, Except.toBool] at h
    rw [strptimeDmY_split3 hsplit] at h
    by_cases hf : (dayField ds && monthField ms && yearField ys) = true
    · rw [if_pos hf] at h
      by_cases hv : isValidDate (digitsVal ys) (digitsVal ms) (digitsVal ds) = true
      · rw [Bool.and_eq_true, Bool.and_eq_true] at hf
        refine ⟨ds, ms, ys, ?_, hf.1.1, hf.1.2, hf.2, hv⟩
        have hj := joinDots_splitDots s.toList
        rw [hsplit] at hj
        simpa [joinDots] using hj.symm
      · rw [if_neg hv] at h
        simp [Except.isOk, Except.toBool] at h
    · rw [if_neg hf] at h
      simp [Except.isOk, Except.toBool] at h
  · rintro ⟨ds, ms, ys, hshape, hd, hm, hy, hv⟩
    have hdd : '.' ∉ ds := by
      apply not_dot_of_digits
      unfold dayField at hd
      rw [Bool.and_eq_true, Bool.and_eq_true, Bool.and_eq_true] at hd
      exact hd.1.1.1
    have hmd : '.' ∉ ms := by
      apply not_dot_of_digits
      unfold monthField at hm
      rw [Bool.and_eq_true, Bool.and_eq_true, Bool.and_eq_true] at hm
      exact hm.1.1.1
    have hyd : '.' ∉ ys := by
      apply not_dot_of_digits
      unfold yearField at hy
      rw [Bool.and_eq_true] at hy
      exact hy.1
    have hsplit : splitDots s.toList = [ds, ms, ys] := by
      rw [hshape, splitDots_append _ hdd, splitDots_append _ hmd, splitDots_no_dot hyd]
    unfold birthdayNew
    rw [strptimeDmY_split3 hsplit, if_pos (by rw [hd, hm, hy]; rfl), if_pos hv]
    rfl

/-- Claim C6 counterexample: `str.isdigit` accepts any Unicode digit, so a
phone built from nine ASCII digits and a superscript two has length 10 and
passes validation, though it does not consist solely of ASCII digits. -/
theorem c6_counterexample :
    (phoneNew "123456789²").isOk = true ∧ specAsciiPhone "123456789²" = false := by
  constructor <;> decide

/-- Claim C6 as amended: `Phone(value)` succeeds iff `value` has length
exactly 10 and every character passes Python `str.isdigit` (which accepts
Unicode digits beyond ASCII); restricted to ASCII strings, the original
statement — solely ASCII digits and length 10 — is exact, and the spec's
examples behave as stated. -/
theorem c6_phone_validation :
    (∀ s : String, (phoneNew s).isOk = true ↔
      (s.toList.all pyIsDigitChar = true ∧ s.length = 10))
    ∧ (∀ s : String, s.toList.all isAsciiChar = true →
      ((phoneNew s).isOk = true ↔ specAsciiPhone s = true))
    ∧ (phoneNew "1234567890").isOk = true
    ∧ (phoneNew "123").isOk = false
    ∧ (phoneNew "12345678ab").isOk = false := by
  have hmain : ∀ s : String, (phoneNew s).isOk = true ↔
      (s.toList.all pyIsDigitChar = true ∧ s.length = 10) := by
    intro s
    rw [phoneNew_isOk_iff]
    constructor
    · intro hc
      rw [Bool.and_eq_true] at hc
      have h1 : (!s.toList.isEmpty && s.toList.all pyIsDigitChar) = true := hc.1
      rw [Bool.and_eq_true] at h1
      exact ⟨h1.2, by simpa using hc.2⟩
    · rintro ⟨hall, hlen⟩
      have hne := toList_isEmpty_false_of_length hlen
      have hA : pyIsdigit s = true := by
        unfold pyIsdigit
        rw [hne, hall]
        rfl
      have hB : (s.length == 10) = true := by
        rw [hlen]
        rfl
      rw [hA, hB]
      rfl
  refine ⟨hmain, fun s hascii => ?_, by decide, by decide, by decide⟩
  rw [hmain s]
  unfold specAsciiPhone
  constructor
  · rintro ⟨h1, h2⟩
    have hdig : s.toList.all Char.isDigit = true := by
      rw [List.all_eq_true] at h1 ⊢
      intro c hc
      rw [← pyIsDigitChar_of_ascii (List.all_eq_true.mp hascii c hc)]
      exact h1 c hc
    rw [hdig, show (s.length == 10) = true by rw [h2]; rfl]
    rfl
  · intro h
    rw [Bool.and_eq_true] at h
    refine ⟨?_, by simpa using h.2⟩
    rw [List.all_eq_true]
    intro c hc
    rw [pyIsDigitChar_of_ascii (List.all_eq_true.mp hascii c hc)]
    exact List.all_eq_true.mp h.1 c hc

/-- Claim C3 counterexample: `change_phone` with a present old phone and an
invalid new phone fails with InvalidFormat but does *not* leave the phone
list unchanged — the old phone has already been removed, because the
source removes before validating. -/
theorem c3_counterexample :
    (changePhone ⟨"Ann", ["1234567890"], none⟩ "1234567890" "123").2
        = .error (.valueError "Invalid phone format. Use 10 digits")
    ∧ (changePhone ⟨"Ann", ["1234567890"], none⟩ "1234567890" "123").1.phones = []
    ∧ ([] : List String) ≠ ["1234567890"] := by
  refine ⟨by decide, by decide, by decide⟩

/-- Claim C3 as amended: `edit_phone(old, new)` fails with NotFound and
leaves the record unchanged when `old` is absent; when `old` is present it
removes the first occurrence of `old` and then validates `new`, so on an
invalid `new` it fails with InvalidFormat with `old` already removed (all
other phones keeping their order), and on a valid `new` it appends `new`
after the remaining phones. -/
theorem c3_edit_phone (r : Record) (oldPhone newPhone : String) :
    (oldPhone ∉ r.phones →
      changePhone r oldPhone newPhone
        = (r, .error (.valueError ("Phone " ++ oldPhone ++ " not found"))))
    ∧ (∀ xs ys, r.phones = xs ++ oldPhone :: ys → oldPhone ∉ xs →
        ((phoneNew newPhone).isOk = true →
          changePhone r oldPhone newPhone
            = ({ r with phones := (xs ++ ys) ++ [newPhone] }, .ok ()))
        ∧ ((phoneNew newPhone).isOk = false →
          changePhone r oldPhone newPhone
            = ({ r with phones := xs ++ ys },
               .error (.valueError "Invalid phone format. Use 10 digits")))) := by
  constructor
  · intro h
    unfold changePhone findPhone
    rw [find?_beq_of_not_mem h]
  · intro xs ys hphones hnx
    have hfind : findPhone r oldPhone = some oldPhone := by
      unfold findPhone
      rw [hphones]
      exact find?_beq_append_cons hnx
    have herase : r.phones.erase oldPhone = xs ++ ys := by
      rw [hphones]
      exact erase_append_cons hnx
    constructor
    · intro hok
      simp only [changePhone, hfind, phoneNew_eq_ok hok, herase]
    · intro hbad
      simp only [changePhone, hfind, phoneNew_eq_err hbad, herase]

/-- Witness for C3: a successful edit on a two-phone record keeps the other
phone in place and appends the new number. -/
theorem c3_witness :
    changePhone ⟨"Ann", ["1111111111", "1234567890"], none⟩ "1234567890" "0000000000"
      = (⟨"Ann", ["1111111111", "0000000000"], none⟩, .ok ()) := by
  have h := ((c3_edit_phone ⟨"Ann", ["1111111111", "1234567890"], none⟩ "1234567890"
      "0000000000").2 ["1111111111"] [] (by decide) (by decide)).1 (by decide)
  exact h

theorem getRecord_addRecord_ne {book : AddressBook} {r : Record} {other : String}
    (h : other ≠ r.name) : getRecord (addRecord book r) other = getRecord book other := by
  have hro : ¬r.name = other := fun he => h he.symm
  induction book with
  | nil => simp [addRecord, getRecord, hro]
  | cons kv rest ih =>
    have hor : ¬other = r.name := fun he => hro he.symm
    by_cases hk : kv.1 = r.name
    · have hko : ¬kv.1 = other := fun he => hro (hk ▸ he)
      simp [addRecord, getRecord, hk, hko, hro]
    · by_cases ho : kv.1 = other
      · simp [addRecord, getRecord, hk, ho, hor]
      · simp [addRecord, getRecord, hk, ho, hor, ih]

theorem getRecord_updateAt_self {book : AddressBook} {name : String} {r0 r : Record}
    (h : getRecord book name = some r0) :
    getRecord (updateAt book name r) name = some r := by
  induction book with
  | nil => cases h
  | cons kv rest ih =>
    have heq : updateAt (kv :: rest) name r
        = (if kv.1 == name then (kv.1, r) else kv) :: updateAt rest name r := rfl
    rw [heq]
    by_cases hk : kv.1 = name
    · simp [getRecord, hk]
    · have hrest : getRecord rest name = some r0 := by
        simpa [getRecord, hk] using h
      simp [getRecord, hk, ih hrest]

theorem getRecord_updateAt_ne (book : AddressBook) (name : String) (r : Record)
    {other : String} (h : other ≠ name) :
    getRecord (updateAt book name r) other = getRecord book other := by
  induction book with
  | nil => rfl
  | cons kv rest ih =>
    have heq : updateAt (kv :: rest) name r
        = (if kv.1 == name then (kv.1, r) else kv) :: updateAt rest name r := rfl
    rw [heq]
    have hno : ¬name = other := fun he => h he.symm
    by_cases hk : kv.1 = name
    · have hko : ¬kv.1 = other := fun he => h (he.symm.trans hk)
      simp [getRecord, hk, hko, hno, ih]
    · by_cases ho : kv.1 = other
      · simp [getRecord, hk, ho, h]
      · simp [getRecord, hk, ho, h, ih]

theorem updateAt_append_key {book : AddressBook} {name : String} (r0 r : Record)
    (h : ∀ kv ∈ book, Prod.fst kv ≠ name) :
    updateAt (book ++ [(name, r0)]) name r = book ++ [(name, r)] := by
  induction book with
  | nil => simp [updateAt]
  | cons kv rest ih =>
    have hk : kv.1 ≠ name := h kv (List.mem_cons_self kv rest)
    have hrest := ih (fun x hx => h x (List.mem_cons_of_mem kv hx))
    simpa [updateAt, hk] using hrest

theorem addPhonesLoop_cons (r : Record) (p : String) (ps : List String) :
    addPhonesLoop r (p :: ps)
      = match recordAddPhone r p with
        | .error e => (r, .error e)
        | .ok r1 => addPhonesLoop r1 ps := rfl

theorem recordAddPhone_ok {r : Record} {p : String} (h : (phoneNew p).isOk = true) :
    recordAddPhone r p = .ok { r with phones := r.phones ++ [p] } := by
  unfold recordAddPhone
  rw [phoneNew_eq_ok h]

theorem addPhonesLoop_ok (good : List String) (r : Record)
    (h : ∀ p ∈ good, (phoneNew p).isOk = true) :
    addPhonesLoop r good = ({ r with phones := r.phones ++ good }, .ok ()) := by
  induction good generalizing r with
  | nil => simp [addPhonesLoop]
  | cons p ps ih =>
    have hstep := recordAddPhone_ok (r := r) (h p (List.mem_cons_self p ps))
    have hih := ih { r with phones := r.phones ++ [p] }
      (fun q hq => h q (List.mem_cons_of_mem p hq))
    simp only [addPhonesLoop_cons, hstep, hih]
    simp

theorem addPhonesLoop_bad (good : List String) (bad : String) (rest : List String) (r : Record)
    (hg : ∀ p ∈ good, (phoneNew p).isOk = true) (hb : (phoneNew bad).isOk = false) :
    addPhonesLoop r (good ++ bad :: rest)
      = ({ r with phones := r.phones ++ good },
         .error (.valueError "Invalid phone format. Use 10 digits")) := by
  induction good generalizing r with
  | nil =>
    have hstep : recordAddPhone r bad
        = .error (.valueError "Invalid phone format. Use 10 digits") := by
      unfold recordAddPhone
      rw [phoneNew_eq_err hb]
    simp only [List.nil_append, addPhonesLoop_cons, hstep]
    simp
  | cons p ps ih =>
    have hstep := recordAddPhone_ok (r := r) (hg p (List.mem_cons_self p ps))
    have hih := ih { r with phones := r.phones ++ [p] }
      (fun q hq => hg q (List.mem_cons_of_mem p hq))
    simp only [List.cons_append, addPhonesLoop_cons, hstep, hih]
    simp [List.append_assoc]

theorem addContact_cons (book : AddressBook) (name : String) (phones : List String) :
    addContact book (name :: phones)
      = (let found := getRecord book name
         let record0 := found.getD ⟨name, [], none⟩
         let message := if found.isNone then "Contact added." else "Contact updated."
         let book1 := if found.isNone then addRecord book record0 else book
         let book2 := updateAt book1 name (addPhonesLoop record0 phones).1
         match (addPhonesLoop record0 phones).2 with
         | .ok _ => (book2, .ok message)
         | .error e => (book2, .error e)) := by
  unfold addContact
  rw [if_neg (by simp)]

/-- Claim C7: in `add <name> phone1 .. phoneN` with the first invalid phone
at position k, the operation fails with InvalidFormat, phones before k stay
appended to the record, the phones from k on are never added, the record —
newly created or not — remains in the Directory with those partial phones,
and every other entry of the Directory is untouched. -/
theorem c7_partial_add (book : AddressBook) (name : String) (good : List String)
    (bad : String) (rest : List String)
    (hg : ∀ p ∈ good, (phoneNew p).isOk = true)
    (hb : (phoneNew bad).isOk = false) :
    (addContact book (name :: (good ++ bad :: rest))).2
        = .error (.valueError "Invalid phone format. Use 10 digits")
    ∧ getRecord (addContact book (name :: (good ++ bad :: rest))).1 name
        = some { (getRecord book name).getD ⟨name, [], none⟩ with
                 phones := ((getRecord book name).getD ⟨name, [], none⟩).phones ++ good }
    ∧ ∀ other, other ≠ name →
        getRecord (addContact book (name :: (good ++ bad :: rest))).1 other
          = getRecord book other := by
  cases hrec : getRecord book name with
  | none =>
    have hloop := addPhonesLoop_bad good bad rest (⟨name, [], none⟩ : Record) hg hb
    have hins : getRecord (addRecord book (⟨name, [], none⟩ : Record)) name
        = some ⟨name, [], none⟩ := getRecord_addRecord_self book ⟨name, [], none⟩
    refine ⟨?_, ?_, ?_⟩
    · simp [addContact_cons, hrec, hloop]
    · simp [addContact_cons, hrec, hloop]
      exact getRecord_updateAt_self hins
    · intro other hother
      simp [addContact_cons, hrec, hloop]
      rw [getRecord_updateAt_ne _ _ _ hother]
      exact getRecord_addRecord_ne hother
  | some r0 =>
    have hloop := addPhonesLoop_bad good bad rest r0 hg hb
    refine ⟨?_, ?_, ?_⟩
    · simp [addContact_cons, hrec, hloop]
    · simp [addContact_cons, hrec, hloop]
      exact getRecord_updateAt_self hrec
    · intro other hother
      simp [addContact_cons, hrec, hloop]
      exact getRecord_updateAt_ne _ _ _ hother

/-- Witness for C7: `add Ann 1234567890 12x 9999999999` on an empty book
fails with InvalidFormat yet leaves Ann stored with the one phone added
before the failure. -/
theorem c7_witness :
    (addContact ([] : AddressBook) ["Ann", "1234567890", "12x", "9999999999"]).2
        = .error (.valueError "Invalid phone format. Use 10 digits")
    ∧ getRecord (addContact ([] : AddressBook) ["Ann", "1234567890", "12x", "9999999999"]).1 "Ann"
        = some ⟨"Ann", ["1234567890"], none⟩ := by
  have h := c7_partial_add ([] : AddressBook) "Ann" ["1234567890"] "12x" ["9999999999"]
    (by decide) (by decide)
  exact ⟨h.1, h.2.1⟩

/-- Claim C8: adding a fresh name appends exactly one record and reports
"Contact added."; a second `add` with the same name reuses that record —
the book gains no entry, the new phone lands in the same record — and
reports "Contact updated.". -/
theorem c8_add_then_update (book : AddressBook) (name p1 p2 : String)
    (h0 : getRecord book name = none)
    (h1 : (phoneNew p1).isOk = true) (h2 : (phoneNew p2).isOk = true) :
    addContact book [name, p1]
      = (book ++ [(name, ⟨name, [p1], none⟩)], .ok "Contact added.")
    ∧ addContact (book ++ [(name, ⟨name, [p1], none⟩)]) [name, p2]
      = (book ++ [(name, ⟨name, [p1, p2], none⟩)], .ok "Contact updated.") := by
  have hkeys : ∀ kv ∈ book, Prod.fst kv ≠ name := getRecord_eq_none_iff.mp h0
  constructor
  · have hloop := addPhonesLoop_ok [p1] (⟨name, [], none⟩ : Record)
      (by intro p hp; rw [List.mem_singleton.mp hp]; exact h1)
    have hins : addRecord book (⟨name, [], none⟩ : Record)
        = book ++ [(name, ⟨name, [], none⟩)] := addRecord_of_getRecord_none h0
    simp [addContact_cons, h0, hloop, hins]
    rw [updateAt_append_key _ _ hkeys]
  · have hget : getRecord (book ++ [(name, (⟨name, [p1], none⟩ : Record))]) name
        = some ⟨name, [p1], none⟩ := by
      rw [getRecord_append_of_none _ h0]
      simp [getRecord]
    have hloop := addPhonesLoop_ok [p2] (⟨name, [p1], none⟩ : Record)
      (by intro p hp; rw [List.mem_singleton.mp hp]; exact h2)
    simp [addContact_cons, hget, hloop]
    rw [updateAt_append_key _ _ hkeys]

/-- Witness for C8: the spec's example run on an empty book. -/
theorem c8_witness :
    addContact ([] : AddressBook) ["Ann", "1234567890"]
      = ([("Ann", ⟨"Ann", ["1234567890"], none⟩)], .ok "Contact added.")
    ∧ addContact [("Ann", ⟨"Ann", ["1234567890"], none⟩)] ["Ann", "0987654321"]
      = ([("Ann", ⟨"Ann", ["1234567890", "0987654321"], none⟩)], .ok "Contact updated.") := by
  have h := c8_add_then_update ([] : AddressBook) "Ann" "1234567890" "0987654321"
    (by decide) (by decide) (by decide)
  exact ⟨h.1, h.2⟩

theorem pyStrip_eq_empty {s : String} (h : s.toList.all pyIsSpace = true) : pyStrip s = "" := by
  unfold pyStrip pyStripList
  have hd : s.toList.dropWhile pyIsSpace = [] :=
    List.dropWhile_eq_nil_iff.mpr (List.all_eq_true.mp h)
  rw [hd]
  rfl

theorem parseInput_blank {line : String} (h : line.toList.all pyIsSpace = true) :
    parseInput line = (none, []) := by
  unfold parseInput
  rw [pyStrip_eq_empty h]
  rfl

/-- Claim C10: an input line that is empty or all whitespace parses to no
verb, and the dispatcher falls through to the unrecognized-command branch,
printing exactly "Invalid command." and leaving the Directory unchanged. -/
theorem c10_blank_line (book : AddressBook) (today : PyDate) (line : String)
    (h : line.toList.all pyIsSpace = true) :
    parseInput line = (none, [])
    ∧ dispatch book today line = (book, .printed ["Invalid command."]) := by
  have hp := parseInput_blank h
  refine ⟨hp, ?_⟩
  unfold dispatch
  rw [hp]

/-- Witness for C10: a line of three spaces on the empty book. -/
theorem c10_witness :
    parseInput "   " = (none, [])
    ∧ dispatch ([] : AddressBook) ⟨2024, 1, 1⟩ "   "
        = ([], .printed ["Invalid command."]) :=
  c10_blank_line ([] : AddressBook) ⟨2024, 1, 1⟩ "   " (by decide)

theorem getRecord_mem {book : AddressBook} {name : String} {r : Record}
    (h : getRecord book name = some r) : (name, r) ∈ book := by
  induction book with
  | nil => cases h
  | cons kv rest ih =>
    by_cases hk : kv.1 = name
    · have h2 : kv.2 = r := Option.some.inj (by simpa [getRecord, hk] using h)
      have he : (name, r) = kv := by rw [← hk, ← h2]
      exact he ▸ List.mem_cons_self kv rest
    · have hrest : getRecord rest name = some r := by simpa [getRecord, hk] using h
      exact List.mem_cons_of_mem kv (ih hrest)

theorem getRecord_name_inv {book : AddressBook} {name : String} {r : Record}
    (hinv : bookInv book) (h : getRecord book name = some r) : r.name = name :=
  hinv.2 (name, r) (getRecord_mem h)

theorem keys_updateAt (book : AddressBook) (name : String) (r : Record) :
    (updateAt book name r).map Prod.fst = book.map Prod.fst := by
  induction book with
  | nil => rfl
  | cons kv rest ih =>
    have heq : updateAt (kv :: rest) name r
        = (if kv.1 == name then (kv.1, r) else kv) :: updateAt rest name r := rfl
    rw [heq]
    by_cases hk : kv.1 = name
    · simp [hk, ih]
    · simp [hk, ih]

theorem bookInv_updateAt {book : AddressBook} {name : String} {r : Record}
    (hinv : bookInv book) (hn : r.name = name) : bookInv (updateAt book name r) := by
  constructor
  · rw [keys_updateAt]
    exact hinv.1
  · intro kv2 hkv2
    rcases List.mem_map.mp hkv2 with ⟨kv, hkv, hf⟩
    by_cases hk : kv.1 = name
    · rw [← hf]
      simp [hk, hn]
    · rw [← hf]
      simp only [beq_iff_eq, hk, if_false]
      exact hinv.2 kv hkv

theorem keys_addRecord_subset {book : AddressBook} {r : Record} {x : String}
    (h : x ∈ (addRecord book r).map Prod.fst) : x ∈ book.map Prod.fst ∨ x = r.name := by
  induction book with
  | nil =>
    right
    simpa [addRecord] using h
  | cons kv rest ih =>
    by_cases hk : kv.1 = r.name
    · have heq : addRecord (kv :: rest) r = (kv.1, r) :: rest := by simp [addRecord, hk]
      rw [heq] at h
      simp only [List.map_cons, List.mem_cons] at h ⊢
      rcases h with h | h
      · exact Or.inl (Or.inl h)
      · exact Or.inl (Or.inr h)
    · have heq : addRecord (kv :: rest) r = kv :: addRecord rest r := by simp [addRecord, hk]
      rw [heq] at h
      simp only [List.map_cons, List.mem_cons] at h ⊢
      rcases h with h | h
      · exact Or.inl (Or.inl h)
      · rcases ih h with h2 | h2
        · exact Or.inl (Or.inr h2)
        · exact Or.inr h2

theorem bookInv_addRecord {book : AddressBook} {r : Record} (hinv : bookInv book) :
    bookInv (addRecord book r) := by
  induction book with
  | nil =>
    refine ⟨by simp [addRecord], ?_⟩
    intro kv hkv
    have he : kv = (r.name, r) := by simpa [addRecord] using hkv
    rw [he]
  | cons kv rest ih =>
    have hkeys : (kv.1 :: rest.map Prod.fst).Nodup := by simpa using hinv.1
    have hnd := List.nodup_cons.mp hkeys
    have hinvrest : bookInv rest :=
      ⟨hnd.2, fun x hx => hinv.2 x (List.mem_cons_of_mem kv hx)⟩
    have ihr := ih hinvrest
    by_cases hk : kv.1 = r.name
    · have heq : addRecord (kv :: rest) r = (kv.1, r) :: rest := by simp [addRecord, hk]
      rw [heq]
      refine ⟨by simpa using hinv.1, ?_⟩
      intro x hx
      rcases List.mem_cons.mp hx with he | hm
      · rw [he]
        simpa using hk.symm
      · exact hinv.2 x (List.mem_cons_of_mem kv hm)
    · have heq : addRecord (kv :: rest) r = kv :: addRecord rest r := by simp [addRecord, hk]
      rw [heq]
      refine ⟨?_, ?_⟩
      · simp only [List.map_cons]
        refine List.nodup_cons.mpr ⟨?_, ihr.1⟩
        intro hmem
        rcases keys_addRecord_subset hmem with h2 | h2
        · exact hnd.1 h2
        · exact hk h2
      · intro x hx
        rcases List.mem_cons.mp hx with he | hm
        · rw [he]
          exact hinv.2 kv (List.mem_cons_self kv rest)
        · exact ihr.2 x hm

theorem addPhonesLoop_name (r : Record) (ps : List String) :
    (addPhonesLoop r ps).1.name = r.name := by
  induction ps generalizing r with
  | nil => rfl
  | cons p ps ih =>
    cases hq : recordAddPhone r p with
    | error e => simp [addPhonesLoop_cons, hq]
    | ok r1 =>
      have hn : r1.name = r.name := by
        unfold recordAddPhone at hq
        cases hp : phoneNew p with
        | error e =>
          rw [hp] at hq
          cases hq
        | ok q =>
          rw [hp] at hq
          cases hq
          rfl
      simp [addPhonesLoop_cons, hq, ih r1, hn]

theorem changePhone_name (r : Record) (a b : String) : (changePhone r a b).1.name = r.name := by
  unfold changePhone
  cases hf : findPhone r a with
  | none => rfl
  | some pobj =>
    cases hp : phoneNew b with
    | error e => rfl
    | ok p => rfl

theorem bookInv_addContact (book : AddressBook) (args : List String) (h : bookInv book) :
    bookInv (addContact book args).1 := by
  cases args with
  | nil => simpa [addContact] using h
  | cons name phones =>
    rw [addContact_cons]
    cases hrec : getRecord book name with
    | none =>
      have hinv1 : bookInv (addRecord book (⟨name, [], none⟩ : Record)) := bookInv_addRecord h
      have hn : (addPhonesLoop (⟨name, [], none⟩ : Record) phones).1.name = name :=
        addPhonesLoop_name _ _
      cases hl : (addPhonesLoop (⟨name, [], none⟩ : Record) phones).2 with
      | ok u =>
        simpa [hrec, hl] using bookInv_updateAt hinv1 hn
      | error e =>
        simpa [hrec, hl] using bookInv_updateAt hinv1 hn
    | some r0 =>
      have hr0 : r0.name = name := getRecord_name_inv h hrec
      have hn : (addPhonesLoop r0 phones).1.name = name := by
        rw [addPhonesLoop_name]
        exact hr0
      cases hl : (addPhonesLoop r0 phones).2 with
      | ok u =>
        simpa [hrec, hl] using bookInv_updateAt h hn
      | error e =>
        simpa [hrec, hl] using bookInv_updateAt h hn

theorem bookInv_changeContact (book : AddressBook) (args : List String) (h : bookInv book) :
    bookInv (changeContact book args).1 := by
  rcases args with _ | ⟨name, _ | ⟨a, _ | ⟨b, _ | ⟨c, rest⟩⟩⟩⟩
  · simpa [changeContact] using h
  · simpa [changeContact] using h
  · simpa [changeContact] using h
  · rw [show changeContact book [name, a, b]
        = (match getRecord book name with
           | none => (book, .error (.keyError ("No such contact: " ++ name)))
           | some r =>
             match (changePhone r a b).2 with
             | .ok _ => (updateAt book name (changePhone r a b).1,
                         .ok ("Phone changed for " ++ name))
             | .error e => (updateAt book name (changePhone r a b).1, .error e))
        from by unfold changeContact; rw [if_neg (by simp)]]
    cases hrec : getRecord book name with
    | none => simpa [hrec] using h
    | some r =>
      have hn : (changePhone r a b).1.name = name := by
        rw [changePhone_name]
        exact getRecord_name_inv h hrec
      cases hl : (changePhone r a b).2 with
      | ok u => simpa [hrec, hl] using bookInv_updateAt h hn
      | error e => simpa [hrec, hl] using bookInv_updateAt h hn
  · simpa [changeContact] using h

theorem bookInv_addBirthdayCmd (book : AddressBook) (args : List String) (h : bookInv book) :
    bookInv (addBirthdayCmd book args).1 := by
  rcases args with _ | ⟨name, _ | ⟨b, _ | ⟨c, rest⟩⟩⟩
  · simpa [addBirthdayCmd] using h
  · simpa [addBirthdayCmd] using h
  · rw [show addBirthdayCmd book [name, b]
        = (match getRecord book name with
           | none => (book, .error (.keyError ("No such contact: " ++ name)))
           | some r =>
             match recordAddBirthday r b with
             | .error e => (book, .error e)
             | .ok r1 => (updateAt book name r1,
                          .ok ("Birthday " ++ b ++ " added for " ++ name)))
        from by unfold addBirthdayCmd; rw [if_neg (by simp)]]
    cases hrec : getRecord book name with
    | none => simpa [hrec] using h
    | some r =>
      cases hb : recordAddBirthday r b with
      | error e => simpa [hrec, hb] using h
      | ok r1 =>
        have hn : r1.name = name := by
          have hr : r1.name = r.name := by
            unfold recordAddBirthday at hb
            cases hbd : birthdayNew b with
            | error e =>
              rw [hbd] at hb
              cases hb
            | ok q =>
              rw [hbd] at hb
              have hinj := Except.ok.inj hb
              rw [← hinj]
          rw [hr]
          exact getRecord_name_inv h hrec
        simpa [hrec, hb] using bookInv_updateAt h hn
  · simpa [addBirthdayCmd] using h

theorem showPhone_fst (book : AddressBook) (args : List String) :
    (showPhone book args).1 = book := by
  rcases args with _ | ⟨name, rest⟩
  · rfl
  · unfold showPhone
    rw [if_neg (by simp)]
    cases hrec : getRecord book name <;> simp [hrec]

theorem showBirthday_fst (book : AddressBook) (args : List String) :
    (showBirthday book args).1 = book := by
  rcases args with _ | ⟨name, rest⟩
  · rfl
  · rw [showBirthday_cons]
    cases getRecord book name with
    | none => rfl
    | some r =>
      rcases r with ⟨nm, ph, bd⟩
      cases bd <;> rfl

/-- Claim C9: processing any single input line — hence every dispatcher
operation: add, change, phone, add-birthday, show-birthday, birthdays,
all, and the fallbacks — preserves the Directory invariant that each name
keys at most one Record and every stored Record's name equals its key. -/
theorem c9_directory_invariant (book : AddressBook) (today : PyDate) (line : String)
    (h : bookInv book) : bookInv (dispatch book today line).1 := by
  unfold dispatch
  cases hp : (parseInput line).1 with
  | none => simpa using h
  | some c =>
    by_cases h1 : (c == "close" || c == "exit") = true
    · simpa [h1] using h
    by_cases h2 : (c == "hello") = true
    · simpa [h1, h2] using h
    by_cases h3 : (c == "add") = true
    · simpa [h1, h2, h3] using bookInv_addContact book (parseInput line).2 h
    by_cases h4 : (c == "change") = true
    · simpa [h1, h2, h3, h4] using bookInv_changeContact book (parseInput line).2 h
    by_cases h5 : (c == "phone") = true
    · simpa [h1, h2, h3, h4, h5, showPhone_fst] using h
    by_cases h6 : (c == "add-birthday") = true
    · simpa [h1, h2, h3, h4, h5, h6] using bookInv_addBirthdayCmd book (parseInput line).2 h
    by_cases h7 : (c == "show-birthday") = true
    · simpa [h1, h2, h3, h4, h5, h6, h7, showBirthday_fst] using h
    by_cases h8 : (c == "birthdays") = true
    · cases hu : getUpcomingBirthdays book today 7 with
      | error e => simpa [h1, h2, h3, h4, h5, h6, h7, h8, hu] using h
      | ok l =>
        by_cases hl : l.isEmpty = true
        · simpa [h1, h2, h3, h4, h5, h6, h7, h8, hu, hl] using h
        · simpa [h1, h2, h3, h4, h5, h6, h7, h8, hu, hl] using h
    by_cases h9 : (c == "all") = true
    · simpa [h1, h2, h3, h4, h5, h6, h7, h8, h9] using h
    · simpa [h1, h2, h3, h4, h5, h6, h7, h8, h9] using h

/-- Witness for C9: an `add` on a one-contact book keeps the invariant. -/
theorem c9_witness :
    bookInv (dispatch [("Ann", ⟨"Ann", ["1234567890"], none⟩)] ⟨2024, 6, 10⟩
      "add Ann 0987654321").1 :=
  c9_directory_invariant [("Ann", ⟨"Ann", ["1234567890"], none⟩)] ⟨2024, 6, 10⟩
    "add Ann 0987654321" ⟨by decide, by decide⟩

theorem replaceYear_ok {dt : PyDate} {yy : Nat} {e : PyDate} (h : replaceYear dt yy = .ok e) :
    isValidDate yy dt.month dt.day = true ∧ e = ⟨yy, dt.month, dt.day⟩ := by
  unfold replaceYear at h
  by_cases hv : isValidDate yy dt.month dt.day = true
  · rw [if_pos hv] at h
    exact ⟨hv, (Except.ok.inj h).symm⟩
  · rw [if_neg hv] at h
    cases h

theorem upcomingFor_ok {today : PyDate} {r : Record} {o : Option (String × String)}
    (h : upcomingFor today 7 r = .ok o) : o = specEntry today r := by
  unfold upcomingFor at h
  split at h
  next hb =>
    simp only [specEntry, hb]
    exact (Except.ok.inj h).symm
  next bval hb =>
    split at h
    next hs => cases h
    next d md y hs =>
      split at h
      next msg herr => cases h
      next bty0 hrep =>
        obtain ⟨hv1x, hb0x⟩ := replaceYear_ok hrep
        have hv1 : isValidDate today.year md d = true := hv1x
        have hb0 : bty0 = ⟨today.year, md, d⟩ := hb0x
        subst hb0
        split at h
        next msg herr2 =>
          cases h
        next bty hbty =>
          by_cases hlt : dateLt ⟨today.year, md, d⟩ today = true
          · rw [if_pos hlt] at hbty
            obtain ⟨hv2x, hb2x⟩ := replaceYear_ok hbty
            have hv2 : isValidDate (today.year + 1) md d = true := hv2x
            have hb2 : bty = ⟨today.year + 1, md, d⟩ := hb2x
            subst hb2
            have hspec : specEntry today r
                = (if (0 : Int) ≤ (toordinal (⟨today.year + 1, md, d⟩ : PyDate) : Int)
                       - (toordinal today : Int)
                     ∧ (toordinal (⟨today.year + 1, md, d⟩ : PyDate) : Int)
                       - (toordinal today : Int) < 7
                   then some (r.name, formatDate
                     (if weekday (⟨today.year + 1, md, d⟩ : PyDate) = 5
                        ∨ weekday (⟨today.year + 1, md, d⟩ : PyDate) = 6
                      then addDaysN (⟨today.year + 1, md, d⟩ : PyDate)
                             (7 - weekday (⟨today.year + 1, md, d⟩ : PyDate))
                      else (⟨today.year + 1, md, d⟩ : PyDate)))
                   else none) := by
              simp only [specEntry, hb, hs, specOccurrence]
              simp [hv1, hv2, hlt]
            rw [hspec]
            split at h
            next hw =>
              rw [if_pos hw]
              exact (Except.ok.inj h).symm
            next hw =>
              rw [if_neg hw]
              exact (Except.ok.inj h).symm
          · rw [if_neg hlt] at hbty
            have hb2 : bty = ⟨today.year, md, d⟩ := (Except.ok.inj hbty).symm
            subst hb2
            have hspec : specEntry today r
                = (if (0 : Int) ≤ (toordinal (⟨today.year, md, d⟩ : PyDate) : Int)
                       - (toordinal today : Int)
                     ∧ (toordinal (⟨today.year, md, d⟩ : PyDate) : Int)
                       - (toordinal today : Int) < 7
                   then some (r.name, formatDate
                     (if weekday (⟨today.year, md, d⟩ : PyDate) = 5
                        ∨ weekday (⟨today.year, md, d⟩ : PyDate) = 6
                      then addDaysN (⟨today.year, md, d⟩ : PyDate)
                             (7 - weekday (⟨today.year, md, d⟩ : PyDate))
                      else (⟨today.year, md, d⟩ : PyDate)))
                   else none) := by
              simp only [specEntry, hb, hs, specOccurrence]
              simp [hv1, hlt]
            rw [hspec]
            split at h
            next hw =>
              rw [if_pos hw]
              exact (Except.ok.inj h).symm
            next hw =>
              rw [if_neg hw]
              exact (Except.ok.inj h).symm

/-- Claim C1: whenever `get_upcoming_birthdays` with a 7-day window
returns without raising, its result is exactly the sequence the
specification prescribes: one `(name, date)` pair per record whose
birthday occurrence — this year's, rolled to next year's if strictly
before today — lies at a pre-roll offset `0 ≤ offset < 7` from today, in
book order, displayed at the occurrence pushed to the following Monday
when it falls on Saturday or Sunday. -/
theorem c1_upcoming_window (book : AddressBook) (today : PyDate)
    (res : List (String × String))
    (h : getUpcomingBirthdays book today 7 = .ok res) :
    res = book.filterMap (fun kv => specEntry today kv.2) := by
  induction book generalizing res with
  | nil =>
    rw [← Except.ok.inj h]
    rfl
  | cons kv rest ih =>
    unfold getUpcomingBirthdays at h
    cases hu : upcomingFor today 7 kv.2 with
    | error e =>
      rw [hu] at h
      cases h
    | ok o =>
      have ho := upcomingFor_ok hu
      cases o with
      | none =>
        simp only [hu] at h
        rw [List.filterMap_cons]
        simp only [← ho]
        exact ih res h
      | some entry =>
        simp only [hu] at h
        cases hrest : getUpcomingBirthdays rest today 7 with
        | error e =>
          rw [hrest] at h
          cases h
        | ok l =>
          simp only [hrest] at h
          rw [← Except.ok.inj h]
          rw [List.filterMap_cons]
          simp only [← ho]
          rw [ih l hrest]

/-- Witness for C1: the spec's example — today 2024-06-10 (a Monday) and a
birthday on 15/06 — is included with offset 5 and displayed rolled to
Monday 17.06.2024, and the code's output equals the spec-side selection. -/
theorem c1_witness :
    getUpcomingBirthdays [("Ann", ⟨"Ann", [], some "15.06.1990"⟩)] ⟨2024, 6, 10⟩ 7
      = .ok [("Ann", "17.06.2024")]
    ∧ [("Ann", "17.06.2024")]
      = List.filterMap (fun kv => specEntry ⟨2024, 6, 10⟩ kv.2)
          [("Ann", ⟨"Ann", [], some "15.06.1990"⟩)] :=
  ⟨by decide,
   c1_upcoming_window [("Ann", ⟨"Ann", [], some "15.06.1990"⟩)] ⟨2024, 6, 10⟩
     [("Ann", "17.06.2024")] (by decide)⟩

end SevenHw
